import Mathlib

/-
Shallow embedding of the coupled Picard iteration engine of the enrico
repository (CoupledDriver in src/unnamed/part_001 and stream::ProcInfo in
src/include/procinfo.h).  Doubles are idealized as exact rationals; MPI
point-to-point transfer and broadcast are modelled denotationally (a
broadcast makes every rank hold the root value; an MPI_Reduce delivers the
combined value at the root only).
-/

namespace enrico

/-- Global cell handles are opaque identifiers; we model them as naturals. -/
abbrev CellHandle := Nat

/-- Relaxation selector held by the driver.  In the C++ source this is a
double field where the value ROBBINS_MONRO (a sentinel defined in the
coupled_driver.h header, which is not part of src/) marks the
diminishing-step policy; every other stored value is a fixed coefficient.
We model the two cases as constructors. -/
inductive AlphaVal where
  | robbinsMonro : AlphaVal
  | fixed (a : ℚ) : AlphaVal
deriving DecidableEq

/-- Fixed-coefficient relaxation, from the source expression
alpha * x + (1.0 - alpha) * x_prev (part_001 lines 333, 386, 454). -/
def relaxFixed (a x xp : ℚ) : ℚ := a * x + (1 - a) * xp

/-- Robbins-Monro relaxation, from the source lines 330-331 (and 381-383,
450-451): int n = i_picard_ + 1; x / n + (1. - 1. / n) * x_prev. -/
def relaxRM (iPicard : ℕ) (x xp : ℚ) : ℚ :=
  x / ((iPicard : ℚ) + 1) + (1 - 1 / ((iPicard : ℚ) + 1)) * xp

/-- Elementwise relaxation of a whole field array, as applied by
update_heat_source, update_temperature and update_density. -/
def relaxArr (al : AlphaVal) (iPicard : ℕ) (cur prev : List ℚ) : List ℚ :=
  match al with
  | .robbinsMonro => List.zipWith (relaxRM iPicard) cur prev
  | .fixed a => List.zipWith (relaxFixed a) cur prev

/-- Per-rank state of a heat-domain process: the fields of CoupledDriver
that live on a heat rank (cells_, cell_to_elems_, elem_* and cell_* arrays,
cell_fluid_mask_). -/
structure HeatRankState where
  cells : List CellHandle
  c2e : CellHandle → List ℕ
  elemT : List ℚ
  elemRho : List ℚ
  elemV : List ℚ
  cellT : List ℚ
  cellTprev : List ℚ
  cellRho : List ℚ
  cellRhoPrev : List ℚ
  cellV : List ℚ
  fluidMask : List Bool

/-- Volume-averaged temperature of local cell i, from update_temperature
step 2 (lines 365-376): accumulate T * V and V over the elements of the
cell, then divide. -/
def volAvgT (s : HeatRankState) (i : ℕ) : ℚ :=
  let es := s.c2e (s.cells.getD i 0)
  (es.map (fun e => s.elemT.getD e 0 * s.elemV.getD e 0)).sum /
    (es.map (fun e => s.elemV.getD e 0)).sum

/-- Volume-averaged density of local cell i, from update_density step 2
(lines 437-443). -/
def volAvgRho (s : HeatRankState) (i : ℕ) : ℚ :=
  let es := s.c2e (s.cells.getD i 0)
  (es.map (fun e => s.elemRho.getD e 0 * s.elemV.getD e 0)).sum /
    (es.map (fun e => s.elemV.getD e 0)).sum

/-- The heat-rank-local part of CoupledDriver::update_temperature
(lines 354-389): step 1 copies the current iterate into
cell_temperatures_prev_ when relaxing, step 2 overwrites every local cell
temperature with the volume average of its elements, then relaxation blends
the new values with the previous iterate. -/
def update_temperature_local (relax : Bool) (alT : AlphaVal) (iPicard : ℕ)
    (s : HeatRankState) : HeatRankState :=
  let s1 := if relax then { s with cellTprev := s.cellT } else s
  let s2 := { s1 with cellT := (List.range s1.cells.length).map (volAvgT s1) }
  if relax then
    { s2 with cellT := relaxArr alT iPicard s2.cellT s2.cellTprev }
  else s2

/-- Accumulation of T_dot_V over all heat ranks, from update_temperature
step 3 (lines 392-411): for each heat rank and each local index i,
T_dot_V at key cells_[i] is incremented by cellT[i] * cellV[i]. -/
def T_dot_V (ranks : List HeatRankState) (c : CellHandle) : ℚ :=
  (ranks.map (fun r =>
    ((List.range r.cells.length).map (fun i =>
      if r.cells.getD i 0 = c then r.cellT.getD i 0 * r.cellV.getD i 0
      else 0)).sum)).sum

/-- Whole CoupledDriver::update_temperature: every heat rank updates its
local state, then the field-domain temperature of each accumulated cell is
set to T_dot_V divided by the neutronics cell volume (step 4, lines
416-418).  The second component gives the temperature pushed into the field
solver for each cell. -/
def update_temperature (relax : Bool) (alT : AlphaVal) (iPicard : ℕ)
    (ranks : List HeatRankState) (nvol : CellHandle → ℚ) :
    List HeatRankState × (CellHandle → ℚ) :=
  let ranks2 := ranks.map (update_temperature_local relax alT iPicard)
  (ranks2, fun c => T_dot_V ranks2 c / nvol c)

/-- The heat-rank-local part of CoupledDriver::update_density (lines
427-457).  Step 1 of the source reads cell_densities_ and writes it back
into cell_densities_ itself: the std::copy destination at line 429 is
cell_densities_.begin(), not cell_densities_prev_.begin(), so the previous
iterate is never refreshed; we transcribe that self-copy faithfully.
Step 2 overwrites the density of cells whose fluid mask is set with the
volume average of their elements and leaves other cells as they are; the
relaxation then blends the whole array with cell_densities_prev_. -/
def update_density_local (relax : Bool) (alRho : AlphaVal) (iPicard : ℕ)
    (s : HeatRankState) : HeatRankState :=
  let s1 := if relax then { s with cellRho := s.cellRho } else s
  let s2 := { s1 with cellRho := (List.range s1.cells.length).map (fun i =>
    if s1.fluidMask.getD i false then volAvgRho s1 i
    else s1.cellRho.getD i 0) }
  if relax then
    { s2 with cellRho := relaxArr alRho iPicard s2.cellRho s2.cellRhoPrev }
  else s2

/-- Convergence norm selector, from the Norm enumeration used by
CoupledDriver::temperature_norm. -/
inductive Norm where
  | L1 : Norm
  | L2 : Norm
  | LINF : Norm
deriving DecidableEq

/-- Local contribution of one heat rank to the temperature norm, from
temperature_norm (lines 244-262): sum of absolute differences for L1, sum
of squared differences for L2, max absolute difference for LINF. -/
def l_sum (nm : Norm) (cur prev : List ℚ) : ℚ :=
  match nm with
  | .L1 => ((cur.zip prev).map (fun p => |p.1 - p.2|)).sum
  | .L2 => ((cur.zip prev).map (fun p => (p.1 - p.2) ^ 2)).sum
  | .LINF => ((cur.zip prev).map (fun p => |p.1 - p.2|)).foldr max 0

/-- The value delivered at the heat-domain root by the MPI_Reduce of the
local contributions: MPI_SUM for L1 and L2, MPI_MAX for LINF.  For L2 this
is the g_sum of line 255, to which the root applies sqrt at line 256. -/
def g_reduce (nm : Norm) (ranks : List HeatRankState) : ℚ :=
  match nm with
  | .LINF => (ranks.map (fun r => l_sum nm r.cellT r.cellTprev)).foldr max 0
  | _ => (ranks.map (fun r => l_sum nm r.cellT r.cellTprev)).sum

/-- Spec-side formula for the quantity under the square root of the L2
norm: the sum, over all heat-active processes, of the squared differences
between current and previous cell temperatures, written with explicit cell
indices. -/
def specL2Sum (ranks : List HeatRankState) : ℚ :=
  (ranks.map (fun r =>
    ((List.range r.cellT.length).map (fun i =>
      (r.cellT.getD i 0 - r.cellTprev.getD i 0) ^ 2)).sum)).sum

/-- Denotational model of a broadcast over the global communicator: after
the call every rank holds the root value. -/
def broadcast {A : Type} (root : ℕ) (vals : ℕ → A) : ℕ → A := fun _ => vals root

/-- CoupledDriver::is_converged (lines 271-289): every rank calls
temperature_norm and obtains its own local result; only the heat root
compares its (reduced) norm against epsilon_, every other rank leaves the
converged flag at an indeterminate value (junk); both the flag and the norm
are then broadcast from the heat root over the global communicator, and the
broadcast flag is returned.  The result is the per-rank returned boolean. -/
def is_converged (tnormVals : ℕ → ℚ) (junk : ℕ → Bool) (heatRoot : ℕ)
    (eps : ℚ) : ℕ → Bool :=
  broadcast heatRoot (fun r =>
    if r = heatRoot then decide (tnormVals r < eps) else junk r)

/-- Inversion step of CoupledDriver::init_mappings (lines 510-513): on the
heat rank, iterate the local elements in order and append each element e to
the entry of cell_to_elems_ keyed by elem_to_cell_[e]. -/
def cell_to_elems_of (e2c : List CellHandle) : CellHandle → List ℕ :=
  (List.range e2c.length).foldl
    (fun m e => fun c => if c = e2c.getD e 0 then m c ++ [e] else m c)
    (fun _ => [])

/-- Collection step of init_mappings (lines 515-517): cells_ receives the
keys of the std::map cell_to_elems_, iterated in ascending key order; the
map holds exactly the keys with at least one inserted element. -/
def cells_of (e2c : List CellHandle) : List CellHandle :=
  (List.range (e2c.foldr max 0 + 1)).filter
    (fun c => decide (cell_to_elems_of e2c c ≠ []))

/-- Content of one relaxation-selector XML node, as read by the set_alpha
lambda of the constructor (lines 53-63): either the literal string
robbins-monro or a numeric value. -/
inductive AlphaConfig where
  | robbinsMonro : AlphaConfig
  | numeric (a : ℚ) : AlphaConfig
deriving DecidableEq

/-- The set_alpha lambda of the CoupledDriver constructor: an absent node
keeps the default; the robbins-monro string selects the sentinel; a numeric
value is accepted only when Expects(alpha > 0 && alpha <= 1.0) holds,
otherwise the contract violation aborts construction (modelled as
Except.error). -/
def set_alpha (cfg : Option AlphaConfig) (dflt : AlphaVal) :
    Except Unit AlphaVal :=
  match cfg with
  | none => .ok dflt
  | some .robbinsMonro => .ok .robbinsMonro
  | some (.numeric a) =>
    if 0 < a ∧ a ≤ 1 then .ok (.fixed a) else .error ()

/-- The three set_alpha calls of the constructor (lines 64-66), for the
heat-source, temperature and density selectors: construction survives only
when all three accept. -/
def validate_alphas (cA cT cR : Option AlphaConfig)
    (dA dT dR : AlphaVal) : Except Unit (AlphaVal × AlphaVal × AlphaVal) :=
  match set_alpha cA dA, set_alpha cT dT, set_alpha cR dR with
  | .ok a, .ok t, .ok r => .ok (a, t, r)
  | _, _, _ => .error ()

/-- Acceptance predicate matching the spec: a selector is valid when it is
absent, the robbins-monro sentinel, or a fixed coefficient in (0, 1]. -/
def alphaConfigOk (cfg : Option AlphaConfig) : Prop :=
  match cfg with
  | some (.numeric a) => 0 < a ∧ a ≤ 1
  | _ => True

/-- The final loop of CoupledDriver::update_heat_source (lines 338-345)
with the start value of the loop index made explicit: the source declares
the index as gsl::index i; without an initializer, so the loop runs from
whatever indeterminate value i0 the storage happens to hold up to
cells_.size(), calling set_heat_source_at(e, cell_heat_[i]) for every
element e of cell i.  The result lists the (element, heat) pairs passed to
the heat solver, in call order. -/
def applyHeatSource (i0 : ℕ) (cells : List CellHandle)
    (c2e : CellHandle → List ℕ) (cellHeat : List ℚ) : List (ℕ × ℚ) :=
  ((List.range cells.length).drop i0).flatMap (fun i =>
    (c2e (cells.getD i 0)).map (fun e => (e, cellHeat.getD i 0)))

end enrico

namespace stream

/-- Queries answered by a non-null MPI communicator: its rank, size and
group. -/
structure CommData where
  rank : Int
  size : Int
  grp : ℕ
deriving DecidableEq

/-- An MPI_Comm handle: either MPI_COMM_NULL or a concrete communicator. -/
inductive MPIComm where
  | null : MPIComm
  | comm (d : CommData) : MPIComm
deriving DecidableEq

/-- An MPI_Group handle: either MPI_GROUP_NULL or a concrete group. -/
inductive MPIGroup where
  | null : MPIGroup
  | group (g : ℕ) : MPIGroup
deriving DecidableEq

/-- The MPI_PROC_NULL rank constant (a distinguished negative value). -/
def MPI_PROC_NULL : Int := -1

/-- stream::ProcInfo (src/include/procinfo.h lines 8-23) with its default
member initializers: comm = MPI_COMM_NULL, group = MPI_GROUP_NULL,
size = 0, rank = MPI_PROC_NULL. -/
structure ProcInfo where
  comm : MPIComm := MPIComm.null
  group : MPIGroup := MPIGroup.null
  size : Int := 0
  rank : Int := MPI_PROC_NULL
deriving DecidableEq

/-- The explicit ProcInfo(MPI_Comm) constructor: the comm field is always
set from the argument; only when the argument is not MPI_COMM_NULL are
MPI_Comm_group, MPI_Comm_rank and MPI_Comm_size queried to fill the
remaining fields, otherwise they keep their defaults. -/
def ProcInfo.ofComm (c : MPIComm) : ProcInfo :=
  match c with
  | .null => { comm := MPIComm.null }
  | .comm d =>
    { comm := c, group := MPIGroup.group d.grp, rank := d.rank, size := d.size }

end stream

namespace enrico

/-- Concrete heat-rank state for the L2 norm witness: two cells with
current temperatures [3, 4] and previous temperatures [0, 4]. -/
def rW : HeatRankState :=
  { cells := [0, 1], c2e := fun _ => [0], elemT := [1], elemRho := [1],
    elemV := [1], cellT := [3, 4], cellTprev := [0, 4], cellRho := [1],
    cellRhoPrev := [1], cellV := [1, 1], fluidMask := [true, true] }

/-- Concrete heat-rank state with a single non-fluid cell whose current
density (2) differs from the stored previous iterate (4). -/
def sC1 : HeatRankState :=
  { cells := [0], c2e := fun _ => [0], elemT := [1], elemRho := [9],
    elemV := [1], cellT := [1], cellTprev := [1], cellRho := [2],
    cellRhoPrev := [4], cellV := [1], fluidMask := [false] }

/-- Concrete heat-rank state with a single fluid cell: element density 6,
current cell density 2, previous iterate 4. -/
def sC2 : HeatRankState :=
  { cells := [0], c2e := fun _ => [0], elemT := [1], elemRho := [6],
    elemV := [1], cellT := [1], cellTprev := [1], cellRho := [2],
    cellRhoPrev := [4], cellV := [1], fluidMask := [true] }

/-- Heat rank owning two elements of global cell 10 (cell A of the spec
scenario): volumes [1, 1], raw temperatures [100, 200], previous cell
iterate 140 held in the current slot before the update. -/
def rankA : HeatRankState :=
  { cells := [10], c2e := fun c => if c = 10 then [0, 1] else [],
    elemT := [100, 200], elemRho := [1, 1], elemV := [1, 1], cellT := [140],
    cellTprev := [0], cellRho := [1], cellRhoPrev := [1], cellV := [2],
    fluidMask := [true] }

/-- Heat rank owning two elements of global cell 20 (cell B of the spec
scenario): volumes [2, 2], raw temperatures [300, 400], previous cell
iterate 340. -/
def rankB : HeatRankState :=
  { cells := [20], c2e := fun c => if c = 20 then [0, 1] else [],
    elemT := [300, 400], elemRho := [1, 1], elemV := [2, 2], cellT := [340],
    cellTprev := [0], cellRho := [1], cellRhoPrev := [1], cellV := [4],
    fluidMask := [true] }

/-- Field-solver cell volumes for the scenario: cell 10 has volume 2 and
cell 20 has volume 4, matching the sums of the element volumes. -/
def nvolEx : CellHandle → ℚ := fun c => if c = 10 then 2 else if c = 20 then 4 else 1

/-- Element lists for the update_heat_source evaluation: cell c owns the
single element c. -/
def c2eC9 : CellHandle → List ℕ := fun c => [c]

/-- Helper: the zip form of the summed squared differences agrees with the
index form once the two arrays have equal length. -/
lemma l2_zip_eq_range (a b : List ℚ) (h : b.length = a.length) :
    ((a.zip b).map (fun p => (p.1 - p.2) ^ 2)).sum
      = ((List.range a.length).map (fun i => (a.getD i 0 - b.getD i 0) ^ 2)).sum := by
  induction a generalizing b with
  | nil => simp
  | cons x a ih =>
    cases b with
    | nil => simp at h
    | cons y b =>
      have h2 : b.length = a.length := by simpa using h
      simp only [List.zip_cons_cons, List.map_cons, List.sum_cons, List.length_cons,
        List.range_succ_eq_map, List.map_map, Function.comp_def, List.getD_cons_succ,
        List.getD_cons_zero]
      rw [ih b h2]

/-- Helper: the reduced L2 accumulator is a sum of squares, hence
nonnegative. -/
lemma g_reduce_L2_nonneg (ranks : List HeatRankState) : 0 ≤ g_reduce Norm.L2 ranks := by
  apply List.sum_nonneg
  intro x hx
  simp only [List.mem_map] at hx
  obtain ⟨r, hr, rfl⟩ := hx
  apply List.sum_nonneg
  intro y hy
  simp only [List.mem_map] at hy
  obtain ⟨p, hp, rfl⟩ := hy
  positivity

/-- Helper: the source-side reduced sum equals the spec-side double sum of
squared differences. -/
lemma g_reduce_L2_eq_spec (ranks : List HeatRankState)
    (h : ∀ r ∈ ranks, r.cellTprev.length = r.cellT.length) :
    g_reduce Norm.L2 ranks = specL2Sum ranks := by
  simp only [g_reduce, specL2Sum]
  congr 1
  apply List.map_congr_left
  intro r hr
  exact l2_zip_eq_range r.cellT r.cellTprev (h r hr)

/-- Helper: unrolling the insertion fold of init_mappings to a filter. -/
lemma foldl_insert_spec (e2c : List CellHandle) (L : List ℕ) (m : CellHandle → List ℕ)
    (c : CellHandle) :
    (L.foldl (fun m e => fun x => if x = e2c.getD e 0 then m x ++ [e] else m x) m) c
      = m c ++ L.filter (fun e => decide (e2c.getD e 0 = c)) := by
  induction L generalizing m with
  | nil => simp
  | cons a L ih =>
    simp only [List.foldl_cons, List.filter_cons]
    rw [ih]
    split_ifs with h1 h2 h2
    · simp [List.append_assoc]
    · exact absurd (decide_eq_true h1.symm) h2
    · exact absurd (of_decide_eq_true h2).symm h1
    · rfl

/-- Helper: membership in the inverted mapping. -/
lemma mem_cell_to_elems (e2c : List CellHandle) (e : ℕ) (c : CellHandle) :
    e ∈ cell_to_elems_of e2c c ↔ e < e2c.length ∧ e2c.getD e 0 = c := by
  unfold cell_to_elems_of
  rw [foldl_insert_spec]
  simp [List.mem_filter, List.mem_range]

/-- Helper: list entries are bounded by the running maximum. -/
lemma getD_le_foldr_max (l : List ℕ) (e : ℕ) (h : e < l.length) :
    l.getD e 0 ≤ l.foldr max 0 := by
  induction l generalizing e with
  | nil => simp at h
  | cons x l ih =>
    cases e with
    | zero =>
      simp only [List.getD_cons_zero, List.foldr_cons]
      exact le_max_left _ _
    | succ e =>
      simp only [List.getD_cons_succ, List.foldr_cons]
      exact le_trans (ih e (by simpa using h)) (le_max_right _ _)

/-- Helper: one selector of the constructor is accepted exactly when it is
absent, robbins-monro, or a numeric value in (0, 1]. -/
lemma set_alpha_ok_iff (cfg : Option AlphaConfig) (dflt : AlphaVal) :
    (∃ v, set_alpha cfg dflt = .ok v) ↔ alphaConfigOk cfg := by
  cases cfg with
  | none => simp [set_alpha, alphaConfigOk]
  | some a =>
    cases a with
    | robbinsMonro => simp [set_alpha, alphaConfigOk]
    | numeric q =>
      simp only [set_alpha, alphaConfigOk]
      by_cases hq : 0 < q ∧ q ≤ 1
      · simp [hq]
      · simp [hq]

/-- C1: the claim says a relaxed update_density leaves every non-fluid
cell bit-for-bit unchanged.  On the source this fails: step 1 (line 429)
copies cell_densities_ onto itself instead of into cell_densities_prev_,
and the relaxation then blends every cell, non-fluid ones included, against
the stale previous array.  At the concrete state sC1 (non-fluid cell,
current density 2, stale previous 4, alpha_rho = 1/2) the cell comes out of
update_density holding 3, not the 2 it held before the call. -/
theorem update_density_nonfluid_changed :
    sC1.fluidMask = [false] ∧ sC1.cellRho = [2] ∧
      (update_density_local true (AlphaVal.fixed (1 / 2)) 0 sC1).cellRho = [3] ∧
      (3 : ℚ) ≠ 2 := by
  refine ⟨rfl, rfl, ?_, by norm_num⟩
  norm_num [update_density_local, volAvgRho, relaxArr, relaxFixed, sC1,
    List.range_zero, List.range_succ]

/-- C2: the claim says a relaxed update_density first overwrites
cell_densities_prev_ with the current density values.  On the source the
std::copy of line 429 writes the current array back into itself, so after
update_density on sC2 (current density 2, previous 4) the previous array
still holds 4 instead of the current value 2 the claim requires. -/
theorem update_density_prev_not_overwritten :
    sC2.cellRho = [2] ∧
      (update_density_local true (AlphaVal.fixed (1 / 2)) 0 sC2).cellRhoPrev = [4] ∧
      (4 : ℚ) ≠ 2 := by
  refine ⟨rfl, ?_, by norm_num⟩
  norm_num [update_density_local, volAvgRho, relaxArr, relaxFixed, sC2,
    List.range_zero, List.range_succ]

/-- C3: every relaxed field update computes the specified blend.  The
fixed-coefficient relaxation is exactly alpha * x + (1 - alpha) * x_prev
and collapses to x at alpha = 1; the Robbins-Monro relaxation with
n = i_picard + 1 is exactly x / n + (1 - 1 / n) * x_prev and collapses to x
at n = 1 (i_picard = 0); the array-level relaxation used by the update
routines applies these blends elementwise. -/
theorem relax_formulas (a x xp : ℚ) (iP : ℕ) (cur prev : List ℚ) :
    relaxFixed a x xp = a * x + (1 - a) * xp ∧
      relaxFixed 1 x xp = x ∧
      relaxRM iP x xp = x / ((iP : ℚ) + 1) + (1 - 1 / ((iP : ℚ) + 1)) * xp ∧
      relaxRM 0 x xp = x ∧
      relaxArr (AlphaVal.fixed a) iP cur prev = List.zipWith (relaxFixed a) cur prev ∧
      relaxArr AlphaVal.robbinsMonro iP cur prev = List.zipWith (relaxRM iP) cur prev := by
  refine ⟨rfl, by simp [relaxFixed], rfl, by norm_num [relaxRM], rfl, rfl⟩

/-- C4: the two-rank scenario.  Rank A owns elements of cell 10 with
volumes [1, 1] and temperatures [100, 200], rank B owns elements of cell 20
with volumes [2, 2] and temperatures [300, 400].  The local volume averages
are 150 and 350; the gather-then-accumulate pass sets the field-domain
temperature of cell 10 to 150 and of cell 20 to 350; and a relaxed update
with alpha_T = 1/2 against previous iterates 140 and 340 produces the local
values 145 and 345. -/
theorem update_temperature_scenario :
    (update_temperature false (AlphaVal.fixed (1 / 2)) 0 [rankA, rankB] nvolEx).1.map
        (fun r => r.cellT) = [[150], [350]] ∧
      (update_temperature false (AlphaVal.fixed (1 / 2)) 0 [rankA, rankB] nvolEx).2 10 = 150 ∧
      (update_temperature false (AlphaVal.fixed (1 / 2)) 0 [rankA, rankB] nvolEx).2 20 = 350 ∧
      (update_temperature true (AlphaVal.fixed (1 / 2)) 0 [rankA, rankB] nvolEx).1.map
        (fun r => r.cellT) = [[145], [345]] := by
  refine ⟨?_, ?_, ?_, ?_⟩ <;>
    norm_num [update_temperature, update_temperature_local, T_dot_V, volAvgT,
      relaxArr, relaxFixed, rankA, rankB, nvolEx, List.range_zero, List.range_succ]

/-- C5: is_converged returns, on every rank, the boolean the heat root
computed by comparing its reduced norm against the tolerance; the
indeterminate local flags of the other ranks never reach the result. -/
theorem is_converged_uniform (tn : ℕ → ℚ) (junk : ℕ → Bool) (heatRoot : ℕ)
    (eps : ℚ) (r : ℕ) :
    is_converged tn junk heatRoot eps r = decide (tn heatRoot < eps) := by
  simp [is_converged, broadcast]

/-- C6: under the L2 selection the scalar held by the heat root after
temperature_norm, namely sqrt applied to the sum-reduced g_sum, is exactly
the square root of the sum over all heat-active processes of the squared
differences between current and previous cell temperatures: it is
nonnegative and its square is that total sum.  The square root acts on the
reduced value, not on the per-rank contributions. -/
theorem temperature_norm_L2_root (ranks : List HeatRankState)
    (h : ∀ r ∈ ranks, r.cellTprev.length = r.cellT.length) :
    Real.sqrt ((g_reduce Norm.L2 ranks : ℚ) : ℝ) ^ 2 = ((specL2Sum ranks : ℚ) : ℝ) ∧
      0 ≤ Real.sqrt ((g_reduce Norm.L2 ranks : ℚ) : ℝ) := by
  constructor
  · rw [Real.sq_sqrt]
    · exact_mod_cast congrArg (fun q : ℚ => (q : ℝ)) (g_reduce_L2_eq_spec ranks h)
    · exact_mod_cast g_reduce_L2_nonneg ranks
  · exact Real.sqrt_nonneg _

/-- Witness for C6 at the concrete rank rW, whose temperature deltas are
[3, 0]: the reduced sum is 9 and the root scalar squares back to it. -/
theorem temperature_norm_L2_root_witness :
    Real.sqrt ((g_reduce Norm.L2 [rW] : ℚ) : ℝ) ^ 2 = ((specL2Sum [rW] : ℚ) : ℝ) ∧
      0 ≤ Real.sqrt ((g_reduce Norm.L2 [rW] : ℚ) : ℝ) :=
  temperature_norm_L2_root [rW] (by
    intro r hr
    rw [List.mem_singleton] at hr
    subst hr
    rfl)

/-- C7: after the inversion step of init_mappings, a local element e lies
in the element list of cell c exactly when elem_to_cell_ maps e to c; every
local element therefore lies in exactly one cell list; and cells_ holds,
without duplicates, exactly the cell handles owning at least one local
element. -/
theorem init_mappings_inverse (e2c : List CellHandle) :
    (∀ e c, e ∈ cell_to_elems_of e2c c ↔ e < e2c.length ∧ e2c.getD e 0 = c) ∧
      (∀ e, e < e2c.length → ∃! c, e ∈ cell_to_elems_of e2c c) ∧
      (∀ c, c ∈ cells_of e2c ↔ ∃ e, e < e2c.length ∧ e2c.getD e 0 = c) ∧
      (cells_of e2c).Nodup := by
  refine ⟨mem_cell_to_elems e2c, ?_, ?_, ?_⟩
  · intro e he
    refine ⟨e2c.getD e 0, (mem_cell_to_elems e2c e _).mpr ⟨he, rfl⟩, ?_⟩
    intro c hc
    exact ((mem_cell_to_elems e2c e c).mp hc).2.symm
  · intro c
    unfold cells_of
    rw [List.mem_filter]
    constructor
    · rintro ⟨-, hne⟩
      rw [decide_eq_true_eq] at hne
      obtain ⟨e, he⟩ := List.exists_mem_of_ne_nil _ hne
      exact ⟨e, (mem_cell_to_elems e2c e c).mp he⟩
    · rintro ⟨e, he, hc⟩
      have hle := getD_le_foldr_max e2c e he
      refine ⟨List.mem_range.mpr (Nat.lt_succ_of_le (hc ▸ hle)), ?_⟩
      rw [decide_eq_true_eq]
      intro hnil
      have hmem : e ∈ cell_to_elems_of e2c c := (mem_cell_to_elems e2c e c).mpr ⟨he, hc⟩
      rw [hnil] at hmem
      exact absurd hmem (List.not_mem_nil e)
  · exact List.Nodup.filter _ (List.nodup_range _)

/-- Witness for C7 on the concrete map [2, 2, 5]: element 1 lies in the
list of cell 2 and in no other list, and cells_ is the duplicate-free
[2, 5]. -/
theorem init_mappings_inverse_witness :
    (1 ∈ cell_to_elems_of [2, 2, 5] 2) ∧
      (∃! c, 1 ∈ cell_to_elems_of [2, 2, 5] c) ∧
      (5 ∈ cells_of [2, 2, 5]) ∧
      (cells_of [2, 2, 5]).Nodup := by
  have h := init_mappings_inverse [2, 2, 5]
  exact ⟨(h.1 1 2).mpr (by decide), h.2.1 1 (by decide),
    (h.2.2.1 5).mpr ⟨2, by decide⟩, h.2.2.2⟩

/-- C8: the constructor survives its three relaxation-selector checks
exactly when each selector is absent, the robbins-monro sentinel, or a
fixed numeric coefficient inside (0, 1]; a fixed coefficient outside that
interval violates the Expects contract and construction aborts before any
iteration can run. -/
theorem alpha_validation (cA cT cR : Option AlphaConfig) (dA dT dR : AlphaVal) :
    (∃ v, validate_alphas cA cT cR dA dT dR = .ok v) ↔
      (alphaConfigOk cA ∧ alphaConfigOk cT ∧ alphaConfigOk cR) := by
  rw [← set_alpha_ok_iff cA dA, ← set_alpha_ok_iff cT dT, ← set_alpha_ok_iff cR dR]
  unfold validate_alphas
  cases hA : set_alpha cA dA <;> cases hT : set_alpha cT dT <;>
    cases hR : set_alpha cR dR <;> simp

/-- C9: the claim says the heat-application loop starts at index 0 and
covers every cell.  On the source the loop index of line 339 is declared
without an initializer (gsl::index i;), so the loop runs from an
indeterminate start value: starting from 0 would visit both cells of the
concrete input, but starting from the equally admissible value 1 skips
cell 0 entirely and element 0 never receives its heat source. -/
theorem update_heat_source_uninit_index :
    applyHeatSource 0 [0, 1] c2eC9 [5, 7] = [(0, 5), (1, 7)] ∧
      applyHeatSource 1 [0, 1] c2eC9 [5, 7] = [(1, 7)] ∧
      (0, (5 : ℚ)) ∉ applyHeatSource 1 [0, 1] c2eC9 [5, 7] := by
  refine ⟨?_, ?_, ?_⟩ <;>
    norm_num [applyHeatSource, c2eC9, List.range_zero, List.range_succ]

end enrico

namespace stream

/-- C10: the ProcInfo constructor invoked on MPI_COMM_NULL leaves every
field at its default (comm = MPI_COMM_NULL, group = MPI_GROUP_NULL,
size = 0, rank = MPI_PROC_NULL), and on a non-null communicator it stores
the communicator and fills group, rank and size from its queries. -/
theorem procinfo_ctor (d : CommData) :
    ProcInfo.ofComm MPIComm.null =
      { comm := MPIComm.null, group := MPIGroup.null, size := 0,
        rank := MPI_PROC_NULL } ∧
      (ProcInfo.ofComm (MPIComm.comm d)).rank = d.rank ∧
      (ProcInfo.ofComm (MPIComm.comm d)).size = d.size ∧
      (ProcInfo.ofComm (MPIComm.comm d)).group = MPIGroup.group d.grp ∧
      (ProcInfo.ofComm (MPIComm.comm d)).comm = MPIComm.comm d :=
  ⟨rfl, rfl, rfl, rfl, rfl⟩

end stream
